import Mathlib

/-!
# Toast notification queue (`Toast/src/App.jsx`)

A shallow embedding of the two stateful parts of the toast demo:

* `ToastProvider` (lines 215-262): the store. Its React state `toasts` and the
  ref `toastIdRef` become the fields of `ProviderState`; every `setToasts`
  updater is applied in call order, so the callbacks are state transformers.
* `Toast` (lines 43-185): the per-toast countdown. The refs `timeoutRef`,
  `startTimeRef`, `remainingTimeRef` and the state `isHovered`, `isVisible`
  become fields of `ToastState`, together with the part of the host timer
  queue (`setTimeout` / `clearTimeout`) that holds this toast's callbacks.

Clock readings (`Date.now()`), durations and ids are integers; the delay given
to `setTimeout` is cut to a signed 32-bit integer by the browser (`hostDelay`).
Styling, icons, the progress bar and the demo screen are not modelled.
-/

namespace ToastApp

/-! ## Store: records and options -/

/-- Name of a caller-supplied function used as `undoAction`. -/
abbrev CallbackId := Nat

/-- The object handed to `addToast`, and the provider's `defaultOptions`.
`none` means the key is absent from the object. For `undoAction` the inner
`none` is an explicit `undefined` (the demo passes one, line 309). -/
structure ToastOptions where
  id : Option Int := none
  type : Option String := none
  title : Option String := none
  message : Option String := none
  duration : Option Int := none
  undoAction : Option (Option CallbackId) := none
  timestamp : Option Int := none
deriving DecidableEq, Repr

/-- A record of the `toasts` array, as built at lines 221-228. -/
structure ToastRecord where
  id : Int
  type : String
  title : Option String
  message : Option String
  duration : Int
  undoAction : Option CallbackId
  timestamp : Int
deriving DecidableEq, Repr

/-- The object literal of lines 221-228:
`{ id, type: 'info', duration: 5000, ...defaultOptions, ...options, timestamp: Date.now() }`.
A later entry of the literal wins, so `options` beats `defaultOptions`, which
beats the three leading entries (`id` among them); `timestamp` comes last. -/
def mkToast (defaultOptions options : ToastOptions) (id now : Int) : ToastRecord :=
  { id := (options.id <|> defaultOptions.id).getD id
    type := (options.type <|> defaultOptions.type).getD "info"
    title := options.title <|> defaultOptions.title
    message := options.message <|> defaultOptions.message
    duration := (options.duration <|> defaultOptions.duration).getD 5000
    undoAction := (options.undoAction <|> defaultOptions.undoAction).getD none
    timestamp := now }

/-- State of a `ToastProvider`: `toasts` (line 216), `toastIdRef.current`
(line 217), and the trace of caller callbacks the provider has invoked. -/
structure ProviderState where
  toasts : List ToastRecord
  toastIdRef : Int
  undoCalls : List CallbackId
deriving DecidableEq, Repr

namespace ToastProvider

/-- A freshly mounted provider: `useState([])`, `useRef(0)`. -/
def init : ProviderState :=
  { toasts := [], toastIdRef := 0, undoCalls := [] }

/-- Lines 219-232. Returns the value of the local constant `id`. -/
def addToast (defaultOptions options : ToastOptions) (now : Int) (s : ProviderState) :
    Int × ProviderState :=
  let id := s.toastIdRef + 1
  let toast := mkToast defaultOptions options id now
  (id, { s with toastIdRef := id, toasts := toast :: s.toasts })

/-- Lines 234-236: `prev.filter(toast => toast.id !== id)`. -/
def removeToast (id : Int) (s : ProviderState) : ProviderState :=
  { s with toasts := s.toasts.filter (fun toast => toast.id != id) }

/-- Lines 238-240. -/
def removeAllToasts (s : ProviderState) : ProviderState :=
  { s with toasts := [] }

/-- Lines 242-247. The argument is a record object, not an id; the only test
is the truthiness of its `undoAction` field. The callback is caller code: the
call is recorded in `undoCalls`, and store calls made inside it are further
entries of the call sequence (their updaters are queued ahead of the
`removeToast` updater, and the test above does not read the store). -/
def undoAction (toast : ToastRecord) (s : ProviderState) : ProviderState :=
  match toast.undoAction with
  | some cb => removeToast toast.id { s with undoCalls := s.undoCalls ++ [cb] }
  | none => s

end ToastProvider

/-- One call on the context value of lines 249-255. -/
inductive StoreCall where
  | addToast (options : ToastOptions) (now : Int)
  | removeToast (id : Int)
  | removeAllToasts
  | undoAction (toast : ToastRecord)
deriving DecidableEq, Repr

/-- Effect of one call on the provider state. -/
def StoreCall.apply (defaultOptions : ToastOptions) (s : ProviderState) :
    StoreCall → ProviderState
  | .addToast options now => (ToastProvider.addToast defaultOptions options now s).2
  | .removeToast id => ToastProvider.removeToast id s
  | .removeAllToasts => ToastProvider.removeAllToasts s
  | .undoAction toast => ToastProvider.undoAction toast s

/-- A sequence of calls, applied in order. -/
def runStore (defaultOptions : ToastOptions) (s : ProviderState) (calls : List StoreCall) :
    ProviderState :=
  calls.foldl (StoreCall.apply defaultOptions) s

/-- The `addToast` calls of a sequence, oldest first: what each one returned
and the record it built. -/
def enqueued (defaultOptions : ToastOptions) :
    ProviderState → List StoreCall → List (Int × ToastRecord)
  | _, [] => []
  | s, .addToast options now :: calls =>
      ((ToastProvider.addToast defaultOptions options now s).1,
        mkToast defaultOptions options (s.toastIdRef + 1) now)
        :: enqueued defaultOptions
            (StoreCall.apply defaultOptions s (.addToast options now)) calls
  | s, call :: calls => enqueued defaultOptions (StoreCall.apply defaultOptions s call) calls

/-- The callbacks that a sequence of calls makes the provider invoke, in
order: one entry for every `undoAction` call on a record that has one. -/
def undoEntries (calls : List StoreCall) : List CallbackId :=
  calls.filterMap fun call =>
    match call with
    | .undoAction toast => toast.undoAction
    | _ => none

/-- Lines 242-247 with the callback's own behaviour made explicit. While it
runs (line 244) the callback makes the store calls `body`; it then returns
(`throws = false`) or throws (`throws = true`). The updaters queued by `body`
come before the `removeToast` updater of line 245, and a throw leaves line 245
unexecuted. `ToastProvider.undoAction` is the case `body = []`, no throw. -/
def ToastProvider.undoActionWith (defaultOptions : ToastOptions) (body : List StoreCall)
    (throws : Bool) (toast : ToastRecord) (s : ProviderState) : ProviderState :=
  match toast.undoAction with
  | some cb =>
      let s1 := runStore defaultOptions { s with undoCalls := s.undoCalls ++ [cb] } body
      if throws then s1 else ToastProvider.removeToast toast.id s1
  | none => s

/-- The store calls of the demo's undo callback, lines 302-308: one `addToast`
of an info toast with `duration: 3000`. -/
def demoUndoBody (now : Int) : List StoreCall :=
  [.addToast { type := some "info", message := some "Undo action executed!",
               duration := some 3000 } now]

/-! ## Container -/

/-- `Array.prototype.slice(0, end)` for an integral `end`: a negative `end`
counts from the back, and the result never runs past the array. -/
def sliceFromStart {α : Type} (xs : List α) (stop : Int) : List α :=
  let len : Int := xs.length
  let final : Int := if stop < 0 then max (len + stop) 0 else min stop len
  xs.take final.toNat

/-- Line 191 of `ToastContainer`: `toasts.slice(0, maxToasts)`. -/
def displayedToasts (toasts : List ToastRecord) (maxToasts : Int) : List ToastRecord :=
  sliceFromStart toasts maxToasts

/-! ## Per-toast countdown (`Toast`, lines 43-120) -/

/-- The two functions this component hands to `setTimeout`: the arrow of
lines 59-61, which calls `handleDismiss`, and the arrow of line 85, which
calls `onDismiss(toast.id)`. -/
inductive TimeoutCallback where
  | expiry
  | removal
deriving DecidableEq, Repr

/-- An entry of the host timer queue: set at clock reading `setAt` with the
given `delay`, not yet fired and not yet cleared. -/
structure ScheduledTimeout where
  handle : Nat
  callback : TimeoutCallback
  setAt : Int
  delay : Int
deriving DecidableEq, Repr

/-- Conversion of an integer to a signed 32-bit integer, wrapping modulo `2^32`. -/
def toInt32 (x : Int) : Int :=
  (x + 2147483648) % 4294967296 - 2147483648

/-- The delay the browser timer acts on: the argument of `setTimeout` is
converted to a signed 32-bit integer and a negative result counts as `0`, so a
delay from `2^31` up to `2^32 - 1` fires at once instead of after that time
(Node uses 1 ms for every delay above `2^31 - 1`). Up to `2^31 - 1` the delay
is used as given. -/
def hostDelay (delay : Int) : Int :=
  max (toInt32 delay) 0

/-- Clock reading from which a scheduled timeout may fire. -/
def ScheduledTimeout.dueAt (t : ScheduledTimeout) : Int :=
  t.setAt + hostDelay t.delay

/-- Life cycle of the component instance. -/
inductive Phase where
  | created
  | mounted
  | unmounted
deriving DecidableEq, Repr

/-- State of one `Toast` instance. `duration` is `toast.duration`. `lastHandle`
and `pending` are the host timer queue (handles are positive and handed out in
increasing order). `expiryFired` and `onDismissCalls` count the runs of the
two timeout callbacks. -/
structure ToastState where
  duration : Int
  phase : Phase
  isVisible : Bool
  isHovered : Bool
  remainingTimeRef : Int
  timeoutRef : Option Nat
  startTimeRef : Option Int
  lastHandle : Nat
  pending : List ScheduledTimeout
  expiryFired : Nat
  onDismissCalls : Nat
deriving DecidableEq, Repr

namespace Toast

/-- First render, lines 44-50: `remainingTimeRef` starts at `toast.duration`,
the other two refs at `null`. `lastHandle` is the last timer handle the host
has handed out so far. -/
def init (duration : Int) (lastHandle : Nat) : ToastState :=
  { duration := duration
    phase := .created
    isVisible := false
    isHovered := false
    remainingTimeRef := duration
    timeoutRef := none
    startTimeRef := none
    lastHandle := lastHandle
    pending := []
    expiryFired := 0
    onDismissCalls := 0 }

/-- Host `setTimeout`: returns a fresh positive handle and queues the callback. -/
def setTimeout (callback : TimeoutCallback) (delay now : Int) (s : ToastState) :
    Nat × ToastState :=
  let handle := s.lastHandle + 1
  (handle, { s with
    lastHandle := handle
    pending := s.pending ++ [{ handle := handle, callback := callback, setAt := now, delay := delay }] })

/-- Host `clearTimeout`: drops the entry with that handle, if there is one. -/
def clearTimeout (handle : Nat) (s : ToastState) : ToastState :=
  { s with pending := s.pending.filter (fun t => t.handle != handle) }

/-- Truthiness of `timeoutRef.current`: `null` and `0` are falsy. -/
def truthy : Option Nat → Bool
  | none => false
  | some handle => handle != 0

/-- Lines 55-67 (without the progress bar). -/
def startTimer (now : Int) (s : ToastState) : ToastState :=
  if s.remainingTimeRef ≤ 0 then s
  else
    let s1 := { s with startTimeRef := some now }
    let (handle, s2) := setTimeout .expiry s1.remainingTimeRef now s1
    { s2 with timeoutRef := some handle }

/-- Lines 69-81 (without the progress bar). `startTimeRef.current` is coerced
to a number by the subtraction, `null` giving `0`. -/
def pauseTimer (now : Int) (s : ToastState) : ToastState :=
  if truthy s.timeoutRef then
    let s1 := clearTimeout (s.timeoutRef.getD 0) s
    let elapsed := now - s1.startTimeRef.getD 0
    { s1 with remainingTimeRef := max 0 (s1.remainingTimeRef - elapsed) }
  else s

/-- Lines 83-86. -/
def handleDismiss (now : Int) (s : ToastState) : ToastState :=
  (setTimeout .removal 300 now { s with isVisible := false }).2

/-- Body of the first effect, lines 95-98. -/
def mountEffect (now : Int) (s : ToastState) : ToastState :=
  let s1 := { s with isVisible := true }
  if s1.duration > 0 then startTimer now s1 else s1

/-- Cleanup of the first effect, lines 99-103. -/
def mountCleanup (s : ToastState) : ToastState :=
  if truthy s.timeoutRef then clearTimeout (s.timeoutRef.getD 0) s else s

/-- Body of the second effect, lines 107-113. -/
def hoverEffect (now : Int) (s : ToastState) : ToastState :=
  if s.duration > 0 then
    if s.isHovered then pauseTimer now s else startTimer now s
  else s

/-- Run of a queued callback. -/
def runCallback (now : Int) (s : ToastState) : TimeoutCallback → ToastState
  | .expiry => handleDismiss now { s with expiryFired := s.expiryFired + 1 }
  | .removal => { s with onDismissCalls := s.onDismissCalls + 1 }

end Toast

/-- What can happen to a `Toast` instance. `mount` runs both effects in
declaration order, each with its own clock reading. `mouseEnter` and
`mouseLeave` are the handlers of lines 135-136. `timeout` is the host firing
the queued entry with that handle. `dismissClick` is the close button or the
Escape key. -/
inductive ToastEvent where
  | mount (now₁ now₂ : Int)
  | mouseEnter (now : Int)
  | mouseLeave (now : Int)
  | timeout (handle : Nat) (now : Int)
  | dismissClick (now : Int)
  | unmount
deriving DecidableEq, Repr

/-- One event. A state setter called with the current value causes no render
and therefore no effect; the second effect reruns only when `isHovered`
changes. A queued entry fires once, and not before it is due. -/
def ToastEvent.apply (s : ToastState) : ToastEvent → ToastState
  | .mount now₁ now₂ =>
      if s.phase = .created then
        Toast.hoverEffect now₂ (Toast.mountEffect now₁ { s with phase := .mounted })
      else s
  | .mouseEnter now =>
      if s.phase = .mounted ∧ s.isHovered = false then
        Toast.hoverEffect now { s with isHovered := true }
      else s
  | .mouseLeave now =>
      if s.phase = .mounted ∧ s.isHovered = true then
        Toast.hoverEffect now { s with isHovered := false }
      else s
  | .timeout handle now =>
      match s.pending.find? (fun t => t.handle == handle) with
      | some t =>
          if t.dueAt ≤ now then
            Toast.runCallback now (Toast.clearTimeout handle s) t.callback
          else s
      | none => s
  | .dismissClick now =>
      if s.phase = .mounted then Toast.handleDismiss now s else s
  | .unmount =>
      if s.phase = .mounted then Toast.mountCleanup { s with phase := .unmounted } else s

/-- A sequence of events, applied in order. -/
def runToast (s : ToastState) (events : List ToastEvent) : ToastState :=
  events.foldl ToastEvent.apply s

/-- The queued entries that will call `handleDismiss`. -/
def expiryTimeouts (s : ToastState) : List ScheduledTimeout :=
  s.pending.filter (fun t => t.callback == .expiry)

/-! ## Invariants and sample states used below -/

/-- What a toast with `duration = 0` keeps true: nothing queued calls
`handleDismiss`, and no expiry callback has run. -/
def PersistentInv (s : ToastState) : Prop :=
  s.duration = 0 ∧ (∀ t ∈ s.pending, t.callback = .removal) ∧ s.expiryFired = 0

/-- Every record id is at most the counter. -/
def IdsBelowCounter (s : ProviderState) : Prop :=
  ∀ t ∈ s.toasts, t.id ≤ s.toastIdRef

/-- The record that `addToast({ message: 'saved', undoAction: f })` builds on
the empty store at clock reading `0`, `f` being callback `7`. -/
def undoRecord : ToastRecord :=
  mkToast {} { message := some "saved", undoAction := some (some 7) } 1 0

/-- The store after that call: `undoRecord` is its only record. -/
def undoStore : ProviderState :=
  (ToastProvider.addToast {} { message := some "saved", undoAction := some (some 7) } 0
    ToastProvider.init).2

/-- A toast with `duration = 5000` after its mount at clock reading `0`. -/
def mountedToast : ToastState :=
  runToast (Toast.init 5000 0) [.mount 0 0]

/-- Seven toasts enqueued in succession on the empty store. -/
def sevenToasts : ProviderState :=
  runStore {} ToastProvider.init
    [.addToast {} 0, .addToast {} 0, .addToast {} 0, .addToast {} 0,
     .addToast {} 0, .addToast {} 0, .addToast {} 0]

/-! ## The countdown -/

/-- Within the 32-bit range the browser timer uses the delay as given. -/
theorem hostDelay_of_range (x : Int) (h0 : 0 ≤ x) (h1 : x ≤ 2147483647) : hostDelay x = x := by
  unfold hostDelay toInt32
  omega

/-- The closures alone, from the state of the first render: `startTimer` at
`t0`, `pauseTimer` at `t0 + e` and `startTimer` at `t1` leave
`remaining = d - e` and one queued entry, armed at `t1` with delay `d - e`. -/
theorem startTimer_pauseTimer_startTimer (d t0 e t1 : Int) (h0 : Nat)
    (hd : 0 < d) (hed : e < d) :
    (Toast.startTimer t1 (Toast.pauseTimer (t0 + e)
        (Toast.startTimer t0 (Toast.init d h0)))).remainingTimeRef = d - e ∧
    (Toast.startTimer t1 (Toast.pauseTimer (t0 + e)
        (Toast.startTimer t0 (Toast.init d h0)))).pending
      = [{ handle := h0 + 2, callback := .expiry, setAt := t1, delay := d - e }] := by
  have h1 : ¬ d ≤ 0 := by omega
  have h2 : ¬ d - e ≤ 0 := by omega
  have h3 : max 0 (d - e) = d - e := max_eq_right (by omega)
  simp [Toast.startTimer, Toast.pauseTimer, Toast.init, Toast.setTimeout,
    Toast.clearTimeout, Toast.truthy, h1, h2, h3]

/-- In the component the same instants give two expiry callbacks: mount at
`t0`, hover-in at `t0 + e` and hover-out at `t1` leave the timeout of the
first effect, due at `t0 + d`, next to the re-armed one, due at
`t1 + (d - e)`. -/
theorem hover_leaves_mount_timeout (d t0 e t1 : Int) (h0 : Nat)
    (hd : 0 < d) (hmax : d ≤ 2147483647) (he : 0 ≤ e) (hed : e < d) :
    (expiryTimeouts (runToast (Toast.init d h0)
        [.mount t0 t0, .mouseEnter (t0 + e), .mouseLeave t1])).map
        (fun t => (t.handle, t.dueAt))
      = [(h0 + 1, t0 + d), (h0 + 3, t1 + (d - e))] := by
  have h1 : ¬ d ≤ 0 := by omega
  have h2 : ¬ d - e ≤ 0 := by omega
  have h3 : max 0 (d - e) = d - e := max_eq_right (by omega)
  have h4 : hostDelay d = d := hostDelay_of_range d (by omega) hmax
  have h5 : hostDelay (d - e) = d - e := hostDelay_of_range (d - e) (by omega) (by omega)
  simp [runToast, ToastEvent.apply, Toast.hoverEffect, Toast.mountEffect,
    Toast.startTimer, Toast.pauseTimer, Toast.init, Toast.setTimeout,
    Toast.clearTimeout, Toast.truthy, expiryTimeouts, ScheduledTimeout.dueAt,
    hd, h1, h2, h3, h4, h5]

/-- C1: a toast with `duration = 5000` is mounted at `0`, hovered at `1000`
and left at `3000`. `remaining` is `4000` and the re-armed expiry (handle 3,
delay `4000`) is due at `7000`, but the timeout of the first effect (handle 1)
was never cleared and is still due at `5000`; when it fires at `5000` the
expiry callback runs and the toast starts its dismissal, `2000` early. -/
theorem hover_pause_dismisses_at_mount_plus_duration :
    (runToast (Toast.init 5000 0)
        [.mount 0 0, .mouseEnter 1000, .mouseLeave 3000]).remainingTimeRef = 4000 ∧
    (expiryTimeouts (runToast (Toast.init 5000 0)
        [.mount 0 0, .mouseEnter 1000, .mouseLeave 3000])).map
        (fun t => (t.handle, t.delay, t.dueAt)) = [(1, 5000, 5000), (3, 4000, 7000)] ∧
    (runToast (Toast.init 5000 0)
        [.mount 0 0, .mouseEnter 1000, .mouseLeave 3000, .timeout 1 5000]).expiryFired = 1 ∧
    (runToast (Toast.init 5000 0)
        [.mount 0 0, .mouseEnter 1000, .mouseLeave 3000, .timeout 1 5000]).isVisible
      = false ∧
    (runToast (Toast.init 5000 0)
        [.mount 0 0, .mouseEnter 1000, .mouseLeave 3000, .timeout 3 5000]).expiryFired
      = 0 := by
  decide

/-- C6: mounting a toast with `duration = 5000` runs `startTimer` in both
effects, which leaves two expiry callbacks queued; hovering clears only the
second, and letting both fire calls `handleDismiss` twice. -/
theorem mount_arms_two_expiry_timeouts :
    (expiryTimeouts (runToast (Toast.init 5000 0) [.mount 0 0])).map
        (fun t => (t.handle, t.dueAt)) = [(1, 5000), (2, 5000)] ∧
    (runToast (Toast.init 5000 0) [.mount 0 0]).timeoutRef = some 2 ∧
    (expiryTimeouts (runToast (Toast.init 5000 0) [.mount 0 0, .mouseEnter 1000])).map
        (fun t => (t.handle, t.dueAt)) = [(1, 5000)] ∧
    (runToast (Toast.init 5000 0)
        [.mount 0 0, .timeout 1 5000, .timeout 2 5000]).expiryFired = 2 := by
  decide

/-- C10 fails as stated: with `duration = 5000`, `startTimer` at `0` and
`pauseTimer` at `1000` leave `remaining = 4000` and `timeoutRef` still set; a
second `pauseTimer` at `2000` lowers `remaining` to `2000`. -/
theorem second_pause_lowers_remaining :
    (Toast.pauseTimer 1000 (Toast.startTimer 0 (Toast.init 5000 0))).remainingTimeRef = 4000 ∧
    (Toast.pauseTimer 1000 (Toast.startTimer 0 (Toast.init 5000 0))).timeoutRef = some 1 ∧
    (Toast.pauseTimer 1000 (Toast.startTimer 0 (Toast.init 5000 0))).pending = [] ∧
    (Toast.pauseTimer 2000 (Toast.pauseTimer 1000
        (Toast.startTimer 0 (Toast.init 5000 0)))).remainingTimeRef = 2000 := by
  decide

theorem persistentInv_init (h0 : Nat) : PersistentInv (Toast.init 0 h0) := by
  simp [PersistentInv, Toast.init]

theorem persistentInv_clearTimeout {s : ToastState} (h : PersistentInv s) (handle : Nat) :
    PersistentInv (Toast.clearTimeout handle s) := by
  obtain ⟨hd, hp, he⟩ := h
  refine ⟨hd, ?_, he⟩
  intro t ht
  exact hp t (List.mem_filter.mp ht).1

theorem persistentInv_handleDismiss {s : ToastState} (h : PersistentInv s) (now : Int) :
    PersistentInv (Toast.handleDismiss now s) := by
  obtain ⟨hd, hp, he⟩ := h
  refine ⟨hd, ?_, he⟩
  intro t ht
  simp only [Toast.handleDismiss, Toast.setTimeout, List.mem_append, List.mem_singleton] at ht
  rcases ht with ht | ht
  · exact hp t ht
  · rw [ht]

theorem persistentInv_hoverEffect {s : ToastState} (h : PersistentInv s) (now : Int) :
    Toast.hoverEffect now s = s := by
  simp [Toast.hoverEffect, h.1]

theorem persistentInv_apply {s : ToastState} (h : PersistentInv s) (ev : ToastEvent) :
    PersistentInv (ev.apply s) := by
  have hd := h.1
  cases ev with
  | mount now₁ now₂ =>
      simp only [ToastEvent.apply]
      split
      · have h1 : PersistentInv
            (Toast.mountEffect now₁ { s with phase := .mounted }) := by
          have hm : Toast.mountEffect now₁ { s with phase := .mounted }
              = { s with phase := .mounted, isVisible := true } := by
            simp [Toast.mountEffect, hd]
          rw [hm]
          exact h
        rw [persistentInv_hoverEffect h1]
        exact h1
      · exact h
  | mouseEnter now =>
      simp only [ToastEvent.apply]
      split
      · have h1 : PersistentInv { s with isHovered := true } := h
        rw [persistentInv_hoverEffect h1]
        exact h1
      · exact h
  | mouseLeave now =>
      simp only [ToastEvent.apply]
      split
      · have h1 : PersistentInv { s with isHovered := false } := h
        rw [persistentInv_hoverEffect h1]
        exact h1
      · exact h
  | timeout handle now =>
      simp only [ToastEvent.apply]
      split
      · next t ht =>
          split
          · have hcb : t.callback = .removal := h.2.1 t (List.mem_of_find?_eq_some ht)
            rw [hcb]
            have h1 := persistentInv_clearTimeout h handle
            exact ⟨h1.1, h1.2.1, h1.2.2⟩
          · exact h
      · exact h
  | dismissClick now =>
      simp only [ToastEvent.apply]
      split
      · exact persistentInv_handleDismiss h now
      · exact h
  | unmount =>
      simp only [ToastEvent.apply]
      split
      · have h1 : PersistentInv { s with phase := .unmounted } := h
        simp only [Toast.mountCleanup]
        split
        · exact persistentInv_clearTimeout h1 _
        · exact h1
      · exact h

theorem persistentInv_runToast (events : List ToastEvent) :
    ∀ s : ToastState, PersistentInv s → PersistentInv (runToast s events) := by
  induction events with
  | nil => intro s h; exact h
  | cons ev rest ih =>
      intro s h
      exact ih (ev.apply s) (persistentInv_apply h ev)

/-- C7: for a toast with `duration = 0`, after any sequence of mount, hover,
timer, click and unmount events no queued callback calls `handleDismiss` and
the expiry callback has never run. -/
theorem persistent_toast_never_expires (h0 : Nat) (events : List ToastEvent) :
    expiryTimeouts (runToast (Toast.init 0 h0) events) = [] ∧
    (runToast (Toast.init 0 h0) events).expiryFired = 0 := by
  obtain ⟨_, hp, he⟩ := persistentInv_runToast events _ (persistentInv_init h0)
  refine ⟨?_, he⟩
  simp only [expiryTimeouts, List.filter_eq_nil_iff]
  intro t ht
  simp [hp t ht]

/-- The hover handler does not reach `pauseTimer` while the toast is already
hovered: a repeated `mouseEnter` changes nothing. -/
theorem mouseEnter_while_hovered (s : ToastState) (now : Int) (h : s.isHovered = true) :
    ToastEvent.apply s (.mouseEnter now) = s := by
  simp [ToastEvent.apply, h]

/-- The second effect touches the refs and the timer queue only. -/
theorem hoverEffect_phase_isHovered (now : Int) (s : ToastState) :
    (Toast.hoverEffect now s).phase = s.phase ∧
    (Toast.hoverEffect now s).isHovered = s.isHovered := by
  unfold Toast.hoverEffect Toast.pauseTimer Toast.startTimer
  split_ifs <;> simp [Toast.setTimeout, Toast.clearTimeout]

/-- While a toast is hovered, no event other than `mouseLeave` changes
`remaining`, and the toast stays hovered. -/
theorem apply_keeps_remaining_while_hovered (s : ToastState) (ev : ToastEvent)
    (hp : s.phase ≠ .created) (hh : s.isHovered = true)
    (hev : ∀ now, ev ≠ .mouseLeave now) :
    (ev.apply s).phase ≠ .created ∧ (ev.apply s).isHovered = true ∧
    (ev.apply s).remainingTimeRef = s.remainingTimeRef := by
  cases ev with
  | mount now₁ now₂ => simp [ToastEvent.apply, hp, hh]
  | mouseEnter now => simp [ToastEvent.apply, hp, hh]
  | mouseLeave now => exact absurd rfl (hev now)
  | timeout handle now =>
      simp only [ToastEvent.apply]
      split
      · next t _ =>
          split
          · cases t.callback <;>
              simp [Toast.runCallback, Toast.handleDismiss, Toast.setTimeout,
                Toast.clearTimeout, hp, hh]
          · exact ⟨hp, hh, rfl⟩
      · exact ⟨hp, hh, rfl⟩
  | dismissClick now =>
      simp only [ToastEvent.apply]
      split
      · simp [Toast.handleDismiss, Toast.setTimeout, hp, hh]
      · exact ⟨hp, hh, rfl⟩
  | unmount =>
      simp only [ToastEvent.apply, Toast.mountCleanup]
      split
      · split <;> simp [Toast.clearTimeout, hh]
      · exact ⟨hp, hh, rfl⟩

theorem runToast_keeps_remaining_while_hovered (events : List ToastEvent) :
    ∀ s : ToastState, s.phase ≠ .created → s.isHovered = true →
      (∀ now, ToastEvent.mouseLeave now ∉ events) →
      (runToast s events).remainingTimeRef = s.remainingTimeRef := by
  induction events with
  | nil => intro s _ _ _; rfl
  | cons ev rest ih =>
      intro s hp hh hev
      have hne : ∀ now, ev ≠ .mouseLeave now := by
        intro now heq
        exact hev now (by simp [heq])
      obtain ⟨hp1, hh1, hr1⟩ := apply_keeps_remaining_while_hovered s ev hp hh hne
      have hrest : ∀ now, ToastEvent.mouseLeave now ∉ rest := by
        intro now hmem
        exact hev now (List.mem_cons_of_mem _ hmem)
      have := ih (ev.apply s) hp1 hh1 hrest
      simpa [runToast, hr1] using this

/-- C10, amended: a mounted toast with a positive duration whose timer has
been started is paused by a hover-in at `now`, which sets `remaining` to
`max 0 (remaining - (now - start))`. From then on `remaining` stays at that
value through every later event up to the next hover-out, whatever the clock
readings; a further hover-in does not reach `pauseTimer` and leaves the whole
state as it is. -/
theorem remaining_frozen_while_hovered (s0 : ToastState) (now : Int)
    (events : List ToastEvent) (hm : s0.phase = .mounted) (hh : s0.isHovered = false)
    (hd : 0 < s0.duration) (hstarted : Toast.truthy s0.timeoutRef = true)
    (hev : ∀ t, ToastEvent.mouseLeave t ∉ events) :
    (ToastEvent.apply s0 (.mouseEnter now)).remainingTimeRef
      = max 0 (s0.remainingTimeRef - (now - s0.startTimeRef.getD 0)) ∧
    (runToast (ToastEvent.apply s0 (.mouseEnter now)) events).remainingTimeRef
      = (ToastEvent.apply s0 (.mouseEnter now)).remainingTimeRef ∧
    ∀ later, ToastEvent.apply (ToastEvent.apply s0 (.mouseEnter now)) (.mouseEnter later)
      = ToastEvent.apply s0 (.mouseEnter now) := by
  have hstep : ToastEvent.apply s0 (.mouseEnter now)
      = Toast.hoverEffect now { s0 with isHovered := true } := by
    simp [ToastEvent.apply, hm, hh]
  have hpi := hoverEffect_phase_isHovered now { s0 with isHovered := true }
  have hphase : (ToastEvent.apply s0 (.mouseEnter now)).phase ≠ .created := by
    rw [hstep, hpi.1]
    simp [hm]
  have hhov : (ToastEvent.apply s0 (.mouseEnter now)).isHovered = true := by
    rw [hstep, hpi.2]
  refine ⟨?_, runToast_keeps_remaining_while_hovered events _ hphase hhov hev,
    fun later => mouseEnter_while_hovered _ later hhov⟩
  rw [hstep]
  simp [Toast.hoverEffect, Toast.pauseTimer, Toast.clearTimeout, hd, hstarted]

/-- C10, amended, on a toast with `duration = 5000` mounted at `0` and hovered
at `1000`: `remaining` is `4000`, and hover-ins at `2000` and `9000` leave it
there. -/
theorem remaining_frozen_while_hovered_witness :
    (ToastEvent.apply mountedToast (.mouseEnter 1000)).remainingTimeRef
      = max 0 (mountedToast.remainingTimeRef - (1000 - mountedToast.startTimeRef.getD 0)) ∧
    (runToast (ToastEvent.apply mountedToast (.mouseEnter 1000))
        [.mouseEnter 2000, .mouseEnter 9000]).remainingTimeRef
      = (ToastEvent.apply mountedToast (.mouseEnter 1000)).remainingTimeRef ∧
    (ToastEvent.apply mountedToast (.mouseEnter 1000)).remainingTimeRef = 4000 :=
  ⟨(remaining_frozen_while_hovered mountedToast 1000 [.mouseEnter 2000, .mouseEnter 9000]
      (by decide) (by decide) (by decide) (by decide) (by simp)).1,
   (remaining_frozen_while_hovered mountedToast 1000 [.mouseEnter 2000, .mouseEnter 9000]
      (by decide) (by decide) (by decide) (by decide) (by simp)).2.1,
   by decide⟩

/-! ## The store -/

theorem toastIdRef_le_apply (dflt : ToastOptions) (s : ProviderState) (call : StoreCall) :
    s.toastIdRef ≤ (call.apply dflt s).toastIdRef := by
  cases call with
  | addToast options now => simp [StoreCall.apply, ToastProvider.addToast]
  | removeToast id => simp [StoreCall.apply, ToastProvider.removeToast]
  | removeAllToasts => simp [StoreCall.apply, ToastProvider.removeAllToasts]
  | undoAction toast =>
      simp only [StoreCall.apply, ToastProvider.undoAction]
      split <;> simp [ToastProvider.removeToast]

theorem toasts_apply_sublist (dflt : ToastOptions) (s : ProviderState) (call : StoreCall)
    (h : ∀ options now, call ≠ .addToast options now) :
    (call.apply dflt s).toasts.Sublist s.toasts := by
  cases call with
  | addToast options now => exact absurd rfl (h options now)
  | removeToast id => exact List.filter_sublist _
  | removeAllToasts => exact List.nil_sublist _
  | undoAction toast =>
      simp only [StoreCall.apply, ToastProvider.undoAction]
      split
      · exact List.filter_sublist _
      · exact List.Sublist.refl _

theorem enqueued_addToast (dflt : ToastOptions) (s : ProviderState) (options : ToastOptions)
    (now : Int) (calls : List StoreCall) :
    enqueued dflt s (.addToast options now :: calls)
      = (s.toastIdRef + 1, mkToast dflt options (s.toastIdRef + 1) now)
          :: enqueued dflt (StoreCall.apply dflt s (.addToast options now)) calls := by
  simp [enqueued, ToastProvider.addToast]

theorem enqueued_other (dflt : ToastOptions) (s : ProviderState) (call : StoreCall)
    (calls : List StoreCall) (h : ∀ options now, call ≠ .addToast options now) :
    enqueued dflt s (call :: calls) = enqueued dflt (call.apply dflt s) calls := by
  cases call with
  | addToast options now => exact absurd rfl (h options now)
  | removeToast id => simp [enqueued]
  | removeAllToasts => simp [enqueued]
  | undoAction toast => simp [enqueued]

/-- The ids returned by the `addToast` calls of a sequence grow strictly and
all lie above the counter the sequence started from. -/
theorem enqueued_ids_increasing (dflt : ToastOptions) (calls : List StoreCall) :
    ∀ s : ProviderState,
      ((enqueued dflt s calls).map Prod.fst).Pairwise (· < ·) ∧
      ∀ id ∈ (enqueued dflt s calls).map Prod.fst, s.toastIdRef < id := by
  induction calls with
  | nil => intro s; simp [enqueued]
  | cons call rest ih =>
      intro s
      have hle := toastIdRef_le_apply dflt s call
      by_cases hadd : ∃ options now, call = .addToast options now
      · obtain ⟨options, now, rfl⟩ := hadd
        obtain ⟨hpw, hlt⟩ := ih (StoreCall.apply dflt s (.addToast options now))
        have hnext : (StoreCall.apply dflt s (.addToast options now)).toastIdRef
            = s.toastIdRef + 1 := by
          simp [StoreCall.apply, ToastProvider.addToast]
        rw [enqueued_addToast]
        refine ⟨?_, ?_⟩
        · simp only [List.map_cons, List.pairwise_cons]
          refine ⟨?_, hpw⟩
          intro id hid
          have := hlt id hid
          omega
        · intro id hid
          simp only [List.map_cons, List.mem_cons] at hid
          rcases hid with rfl | hid
          · omega
          · have := hlt id hid
            omega
      · have hne : ∀ options now, call ≠ .addToast options now := by
          intro options now heq
          exact hadd ⟨options, now, heq⟩
        obtain ⟨hpw, hlt⟩ := ih (call.apply dflt s)
        rw [enqueued_other dflt s call rest hne]
        refine ⟨hpw, ?_⟩
        intro id hid
        have := hlt id hid
        omega

/-- The collection after a sequence of calls is made of some of the records
the sequence enqueued, newest first, followed by some of the records that were
there before, in their old order. -/
theorem runStore_toasts_split (dflt : ToastOptions) (calls : List StoreCall) :
    ∀ s : ProviderState,
      ∃ (l : List (Int × ToastRecord)) (old : List ToastRecord),
        l.Sublist (enqueued dflt s calls).reverse ∧ old.Sublist s.toasts ∧
        (runStore dflt s calls).toasts = l.map Prod.snd ++ old := by
  induction calls with
  | nil =>
      intro s
      exact ⟨[], s.toasts, by simp [enqueued], List.Sublist.refl _, by simp [runStore]⟩
  | cons call rest ih =>
      intro s
      obtain ⟨l, old, hl, hold, hrun⟩ := ih (call.apply dflt s)
      have hstep : runStore dflt s (call :: rest) = runStore dflt (call.apply dflt s) rest := by
        simp [runStore]
      by_cases hadd : ∃ options now, call = .addToast options now
      · obtain ⟨options, now, rfl⟩ := hadd
        have htoasts : (StoreCall.apply dflt s (.addToast options now)).toasts
            = mkToast dflt options (s.toastIdRef + 1) now :: s.toasts := by
          simp [StoreCall.apply, ToastProvider.addToast]
        rw [htoasts, List.sublist_cons_iff] at hold
        rw [hstep, enqueued_addToast, List.reverse_cons]
        rcases hold with hold | ⟨old', rfl, hold'⟩
        · exact ⟨l, old, hl.trans (List.sublist_append_left _ _), hold, hrun⟩
        · refine ⟨l ++ [(s.toastIdRef + 1, mkToast dflt options (s.toastIdRef + 1) now)],
            old', ?_, hold', ?_⟩
          · exact List.Sublist.append hl (List.Sublist.refl _)
          · rw [hrun]; simp
      · have hne : ∀ options now, call ≠ .addToast options now := by
          intro options now heq
          exact hadd ⟨options, now, heq⟩
        rw [hstep, enqueued_other dflt s call rest hne]
        exact ⟨l, old, hl, hold.trans (toasts_apply_sublist dflt s call hne), hrun⟩

/-- C2: after any sequence of `addToast`, `removeToast`, `removeAllToasts` and
`undoAction` calls on the empty store, the collection consists of records
built by `addToast` calls of the sequence, listed from the latest call to the
earliest: it is the record column of a subsequence of the reversed call log,
and the ids those calls returned fall strictly from head to tail. -/
theorem collection_is_newest_first (dflt : ToastOptions) (calls : List StoreCall) :
    ∃ l : List (Int × ToastRecord),
      l.Sublist (enqueued dflt ToastProvider.init calls).reverse ∧
      l.map Prod.snd = (runStore dflt ToastProvider.init calls).toasts ∧
      (l.map Prod.fst).Pairwise (· > ·) := by
  obtain ⟨l, old, hl, hold, hrun⟩ := runStore_toasts_split dflt calls ToastProvider.init
  have hnil : old = [] := by
    simpa [ToastProvider.init] using hold
  subst hnil
  refine ⟨l, hl, by simp [hrun], ?_⟩
  have hinc := (enqueued_ids_increasing dflt calls ToastProvider.init).1
  have hdec : ((enqueued dflt ToastProvider.init calls).reverse.map Prod.fst).Pairwise
      (· > ·) := by
    rw [List.map_reverse, List.pairwise_reverse]
    exact hinc
  exact hdec.sublist (hl.map Prod.fst)

/-- C5: an `id` key in the options replaces the generated id. Two calls
`addToast({ id: 7 })` on the empty store return `1` and `2` and leave two
records in the collection, both with id `7`; the `timestamp` key of the same
options is not taken over. -/
theorem options_id_replaces_generated_id :
    (ToastProvider.addToast {} { id := some 7, timestamp := some 99 } 10
        ToastProvider.init).1 = 1 ∧
    (ToastProvider.addToast {} { id := some 7, timestamp := some 99 } 20
        (ToastProvider.addToast {} { id := some 7, timestamp := some 99 } 10
          ToastProvider.init).2).1 = 2 ∧
    (runStore {} ToastProvider.init
        [.addToast { id := some 7, timestamp := some 99 } 10,
         .addToast { id := some 7, timestamp := some 99 } 20]).toasts.map
        (fun t => (t.id, t.timestamp)) = [(7, 20), (7, 10)] := by
  decide

/-- C3: on the empty store `addToast({ id: 99 })` returns `1`, and the
`removeToast(1)` that follows removes nothing: the collection holds the new
record instead of being empty again. -/
theorem removeToast_of_returned_id_misses_record :
    (ToastProvider.addToast {} { id := some 99 } 0 ToastProvider.init).1 = 1 ∧
    (ToastProvider.removeToast 1
        (ToastProvider.addToast {} { id := some 99 } 0 ToastProvider.init).2).toasts.map
        (fun t => t.id) = [99] ∧
    (ToastProvider.removeToast 1
        (ToastProvider.addToast {} { id := some 99 } 0 ToastProvider.init).2).toasts
      ≠ ToastProvider.init.toasts := by
  decide

/-- The provider's trace after a sequence of calls: what was there, then one
entry per `undoAction` call on a record that has a callback. -/
theorem runStore_undoCalls (dflt : ToastOptions) (calls : List StoreCall) :
    ∀ s : ProviderState,
      (runStore dflt s calls).undoCalls = s.undoCalls ++ undoEntries calls := by
  induction calls with
  | nil => intro s; simp [runStore, undoEntries]
  | cons call rest ih =>
      intro s
      have hstep : runStore dflt s (call :: rest) = runStore dflt (call.apply dflt s) rest := by
        simp [runStore]
      rw [hstep, ih]
      cases call with
      | addToast options now =>
          simp [StoreCall.apply, ToastProvider.addToast, undoEntries]
      | removeToast id => simp [StoreCall.apply, ToastProvider.removeToast, undoEntries]
      | removeAllToasts => simp [StoreCall.apply, ToastProvider.removeAllToasts, undoEntries]
      | undoAction toast =>
          cases h : toast.undoAction <;>
            simp [StoreCall.apply, ToastProvider.undoAction, ToastProvider.removeToast,
              undoEntries, h]

/-- A call reads the collection and the counter only: two states that agree
on both still agree on both after it. -/
theorem apply_toasts_congr (dflt : ToastOptions) (call : StoreCall) (s s' : ProviderState)
    (ht : s.toasts = s'.toasts) (hi : s.toastIdRef = s'.toastIdRef) :
    (call.apply dflt s).toasts = (call.apply dflt s').toasts ∧
    (call.apply dflt s).toastIdRef = (call.apply dflt s').toastIdRef := by
  cases call with
  | addToast options now => simp [StoreCall.apply, ToastProvider.addToast, ht, hi]
  | removeToast id => simp [StoreCall.apply, ToastProvider.removeToast, ht, hi]
  | removeAllToasts => simp [StoreCall.apply, ToastProvider.removeAllToasts, hi]
  | undoAction toast =>
      cases h : toast.undoAction <;>
        simp [StoreCall.apply, ToastProvider.undoAction, ToastProvider.removeToast, h, ht, hi]

theorem runStore_toasts_congr (dflt : ToastOptions) (calls : List StoreCall) :
    ∀ s s' : ProviderState, s.toasts = s'.toasts → s.toastIdRef = s'.toastIdRef →
      (runStore dflt s calls).toasts = (runStore dflt s' calls).toasts := by
  induction calls with
  | nil => intro s s' ht _; simpa [runStore] using ht
  | cons call rest ih =>
      intro s s' ht hi
      obtain ⟨ht1, hi1⟩ := apply_toasts_congr dflt call s s' ht hi
      have := ih (call.apply dflt s) (call.apply dflt s') ht1 hi1
      simpa [runStore] using this

/-- The collection after a sequence of calls does not depend on the trace. -/
theorem runStore_toasts_of_trace (dflt : ToastOptions) (calls : List StoreCall)
    (s : ProviderState) (u : List CallbackId) :
    (runStore dflt { s with undoCalls := u } calls).toasts
      = (runStore dflt s calls).toasts :=
  runStore_toasts_congr dflt calls _ _ rfl rfl

/-- A callback that makes no store calls and returns: `undoActionWith` is
`undoAction`. -/
theorem undoActionWith_nil (dflt : ToastOptions) (toast : ToastRecord) (s : ProviderState) :
    ToastProvider.undoActionWith dflt [] false toast s = ToastProvider.undoAction toast s := by
  cases h : toast.undoAction <;>
    simp [ToastProvider.undoActionWith, ToastProvider.undoAction, runStore, h]

/-- The collection left by `undoAction` with a callback that makes the store
calls `body` and returns is the one left by the flat sequence `body` followed
by `undoAction`. -/
theorem undoActionWith_toasts_eq_runStore (dflt : ToastOptions) (body : List StoreCall)
    (toast : ToastRecord) (s : ProviderState) (cb : CallbackId)
    (hcb : toast.undoAction = some cb) :
    (ToastProvider.undoActionWith dflt body false toast s).toasts
      = (runStore dflt s (body ++ [.undoAction toast])).toasts := by
  have hsplit : runStore dflt s (body ++ [.undoAction toast])
      = ToastProvider.undoAction toast (runStore dflt s body) := by
    simp [runStore, StoreCall.apply]
  rw [hsplit]
  simp [ToastProvider.undoActionWith, ToastProvider.undoAction,
    ToastProvider.removeToast, hcb, runStore_toasts_of_trace]

/-- C4 fails as stated: calling `undoAction` twice with the one record of
`undoStore` runs callback `7` twice. With a callback that makes no store calls
the second call still is no no-op, since the trace grows; with the demo's
callback, which enqueues a toast, the second call also changes the collection
from ids `[2]` to ids `[3, 2]`; and a callback that throws leaves the record
in the collection. -/
theorem second_undoAction_calls_callback_again :
    undoStore.toasts = [undoRecord] ∧
    undoRecord.undoAction = some 7 ∧
    (ToastProvider.undoAction undoRecord undoStore).undoCalls = [7] ∧
    (ToastProvider.undoAction undoRecord undoStore).toasts = [] ∧
    (ToastProvider.undoAction undoRecord
        (ToastProvider.undoAction undoRecord undoStore)).undoCalls = [7, 7] ∧
    ToastProvider.undoAction undoRecord (ToastProvider.undoAction undoRecord undoStore)
      ≠ ToastProvider.undoAction undoRecord undoStore ∧
    (ToastProvider.undoActionWith {} (demoUndoBody 10) false undoRecord
        undoStore).toasts.map (fun t => t.id) = [2] ∧
    (ToastProvider.undoActionWith {} (demoUndoBody 20) false undoRecord
        (ToastProvider.undoActionWith {} (demoUndoBody 10) false undoRecord
          undoStore)).toasts.map (fun t => t.id) = [3, 2] ∧
    (ToastProvider.undoActionWith {} (demoUndoBody 20) false undoRecord
        (ToastProvider.undoActionWith {} (demoUndoBody 10) false undoRecord
          undoStore)).undoCalls = [7, 7] ∧
    (ToastProvider.undoActionWith {} [] true undoRecord undoStore).toasts = [undoRecord] := by
  decide

/-- C4, amended: for a record of the store whose `undoAction` is `cb`, an
`undoAction` call runs `cb` once, whatever store calls `body₁` the callback
makes; if the callback returns, the record is gone afterwards and the records
with another id are as the callback left them, and if it throws, the
collection is as the callback left it. A second call with the same record
runs `cb` once more, whatever it does then (`body₂`); the record is still
gone, the records with another id are as the callback left them, and the
collection is unchanged when the callback makes no store call. -/
theorem undoAction_runs_callback_per_call (dflt : ToastOptions) (s : ProviderState)
    (toast : ToastRecord) (cb : CallbackId) (body₁ body₂ : List StoreCall)
    (_hmem : toast ∈ s.toasts) (hcb : toast.undoAction = some cb) :
    (ToastProvider.undoActionWith dflt body₁ false toast s).undoCalls
      = s.undoCalls ++ cb :: undoEntries body₁ ∧
    toast ∉ (ToastProvider.undoActionWith dflt body₁ false toast s).toasts ∧
    (ToastProvider.undoActionWith dflt body₁ false toast s).toasts.filter
        (fun t => t.id != toast.id)
      = (runStore dflt s body₁).toasts.filter (fun t => t.id != toast.id) ∧
    (ToastProvider.undoActionWith dflt body₁ true toast s).undoCalls
      = s.undoCalls ++ cb :: undoEntries body₁ ∧
    (ToastProvider.undoActionWith dflt body₁ true toast s).toasts
      = (runStore dflt s body₁).toasts ∧
    (ToastProvider.undoActionWith dflt body₂ false toast
        (ToastProvider.undoActionWith dflt body₁ false toast s)).undoCalls
      = (ToastProvider.undoActionWith dflt body₁ false toast s).undoCalls
          ++ cb :: undoEntries body₂ ∧
    toast ∉ (ToastProvider.undoActionWith dflt body₂ false toast
        (ToastProvider.undoActionWith dflt body₁ false toast s)).toasts ∧
    (ToastProvider.undoActionWith dflt body₂ false toast
        (ToastProvider.undoActionWith dflt body₁ false toast s)).toasts.filter
        (fun t => t.id != toast.id)
      = (runStore dflt (ToastProvider.undoActionWith dflt body₁ false toast s)
          body₂).toasts.filter (fun t => t.id != toast.id) ∧
    (ToastProvider.undoActionWith dflt [] false toast
        (ToastProvider.undoActionWith dflt body₁ false toast s)).toasts
      = (ToastProvider.undoActionWith dflt body₁ false toast s).toasts := by
  have hcalls : ∀ (body : List StoreCall) (throws : Bool) (s' : ProviderState),
      (ToastProvider.undoActionWith dflt body throws toast s').undoCalls
        = s'.undoCalls ++ cb :: undoEntries body := by
    intro body throws s'
    cases throws <;>
      simp [ToastProvider.undoActionWith, ToastProvider.removeToast, hcb, runStore_undoCalls]
  have htoasts : ∀ (body : List StoreCall) (s' : ProviderState),
      (ToastProvider.undoActionWith dflt body false toast s').toasts
        = (runStore dflt s' body).toasts.filter (fun t => t.id != toast.id) := by
    intro body s'
    simp [ToastProvider.undoActionWith, ToastProvider.removeToast, hcb,
      runStore_toasts_of_trace]
  have hgone : ∀ (body : List StoreCall) (s' : ProviderState),
      toast ∉ (ToastProvider.undoActionWith dflt body false toast s').toasts := by
    intro body s'
    rw [htoasts]
    simp [List.mem_filter]
  refine ⟨hcalls _ _ _, hgone _ _, ?_, hcalls _ _ _, ?_, hcalls _ _ _, hgone _ _, ?_, ?_⟩
  · rw [htoasts]; simp [List.filter_filter]
  · simp [ToastProvider.undoActionWith, hcb, runStore_toasts_of_trace]
  · rw [htoasts]; simp [List.filter_filter]
  · rw [htoasts []]
    simp only [runStore, List.foldl_nil]
    rw [htoasts body₁ s]
    simp [List.filter_filter]

/-- C4, amended, on `undoStore`, its record, and the demo's callback. -/
theorem undoAction_runs_callback_per_call_witness :
    (ToastProvider.undoActionWith {} (demoUndoBody 10) false undoRecord undoStore).undoCalls
      = undoStore.undoCalls ++ 7 :: undoEntries (demoUndoBody 10) ∧
    undoRecord ∉ (ToastProvider.undoActionWith {} (demoUndoBody 10) false undoRecord
      undoStore).toasts ∧
    (ToastProvider.undoActionWith {} (demoUndoBody 20) false undoRecord
        (ToastProvider.undoActionWith {} (demoUndoBody 10) false undoRecord
          undoStore)).undoCalls = [7, 7] :=
  ⟨(undoAction_runs_callback_per_call {} undoStore undoRecord 7 (demoUndoBody 10)
      (demoUndoBody 20) (by decide) (by decide)).1,
   (undoAction_runs_callback_per_call {} undoStore undoRecord 7 (demoUndoBody 10)
      (demoUndoBody 20) (by decide) (by decide)).2.1,
   by decide⟩

/-- C9: `removeToast(id)` twice gives what `removeToast(id)` once gives, and
on a collection without a record of that id it changes nothing. -/
theorem removeToast_idempotent (id : Int) (s : ProviderState) :
    ToastProvider.removeToast id (ToastProvider.removeToast id s)
      = ToastProvider.removeToast id s ∧
    ((∀ t ∈ s.toasts, t.id ≠ id) → ToastProvider.removeToast id s = s) := by
  refine ⟨?_, ?_⟩
  · simp [ToastProvider.removeToast, List.filter_filter]
  · intro h
    have hf : s.toasts.filter (fun toast => toast.id != id) = s.toasts := by
      rw [List.filter_eq_self]
      intro t ht
      simpa using h t ht
    simp [ToastProvider.removeToast, hf]

/-- C9 on `undoStore`, whose only record has id `1`. -/
theorem removeToast_idempotent_witness :
    ToastProvider.removeToast 1 (ToastProvider.removeToast 1 undoStore)
      = ToastProvider.removeToast 1 undoStore ∧
    ToastProvider.removeToast 2 undoStore = undoStore :=
  ⟨(removeToast_idempotent 1 undoStore).1,
   (removeToast_idempotent 2 undoStore).2 (by decide)⟩

/-- C8: for a positive `maxToasts = m` the container shows the first
`min n m` of the `n` records, in collection order, and `addToast` keeps every
record that was there, so the collection is never cut to the cap. -/
theorem displayedToasts_is_first_maxToasts (toasts : List ToastRecord) (m : Int)
    (hm : 0 < m) (dflt options : ToastOptions) (now : Int) (s : ProviderState) :
    displayedToasts toasts m = toasts.take (min toasts.length m.toNat) ∧
    (displayedToasts toasts m).length = min toasts.length m.toNat ∧
    (ToastProvider.addToast dflt options now s).2.toasts
      = mkToast dflt options (s.toastIdRef + 1) now :: s.toasts := by
  have h1 : ¬ m < 0 := by omega
  have h2 : (min m (toasts.length : Int)).toNat = min toasts.length m.toNat := by omega
  refine ⟨?_, ?_, ?_⟩
  · simp [displayedToasts, sliceFromStart, h1, h2]
  · simp [displayedToasts, sliceFromStart, h1, h2]
  · simp [ToastProvider.addToast]

/-- C8 with `maxToasts = 5` and seven toasts: the five newest are shown, all
seven stay in the collection. -/
theorem displayedToasts_is_first_maxToasts_witness :
    displayedToasts sevenToasts.toasts 5
      = sevenToasts.toasts.take (min sevenToasts.toasts.length (5 : Int).toNat) ∧
    (displayedToasts sevenToasts.toasts 5).map (fun t => t.id) = [7, 6, 5, 4, 3] ∧
    sevenToasts.toasts.map (fun t => t.id) = [7, 6, 5, 4, 3, 2, 1] :=
  ⟨(displayedToasts_is_first_maxToasts sevenToasts.toasts 5 (by decide) {} {} 0
      ToastProvider.init).1,
   by decide, by decide⟩

/-! ## What holds when no options object carries an `id` key -/

/-- Without an `id` key in `defaultOptions` and `options`, the record gets the
id that `addToast` returns. -/
theorem mkToast_id_of_no_id_key (dflt options : ToastOptions) (id now : Int)
    (hd : dflt.id = none) (ho : options.id = none) :
    (mkToast dflt options id now).id = id := by
  simp [mkToast, hd, ho]

/-- Without an `id` key, `addToast` followed by `removeToast` of the returned
id gives back the collection, on every store whose ids do not exceed the
counter. -/
theorem addToast_removeToast_of_no_id_key (dflt options : ToastOptions) (now : Int)
    (s : ProviderState) (hd : dflt.id = none) (ho : options.id = none)
    (hs : IdsBelowCounter s) :
    (ToastProvider.removeToast (ToastProvider.addToast dflt options now s).1
        (ToastProvider.addToast dflt options now s).2).toasts = s.toasts := by
  have hid := mkToast_id_of_no_id_key dflt options (s.toastIdRef + 1) now hd ho
  simp only [ToastProvider.removeToast, ToastProvider.addToast]
  rw [List.filter_cons]
  simp only [hid, bne_self_eq_false, Bool.false_eq_true, if_false]
  rw [List.filter_eq_self]
  intro t ht
  have := hs t ht
  simp only [bne_iff_ne, ne_eq]
  omega

/-- Without an `id` key, every call keeps the record ids at most the counter
and strictly falling from head to tail, hence pairwise distinct. -/
theorem ids_fall_of_no_id_key (dflt : ToastOptions) (s : ProviderState) (call : StoreCall)
    (hd : dflt.id = none) (hc : ∀ options now, call = .addToast options now → options.id = none)
    (hs : IdsBelowCounter s) (hp : (s.toasts.map (fun t => t.id)).Pairwise (· > ·)) :
    IdsBelowCounter (call.apply dflt s) ∧
    ((call.apply dflt s).toasts.map (fun t => t.id)).Pairwise (· > ·) := by
  have hfilter : ∀ (id : Int) (u : List CallbackId),
      IdsBelowCounter (ToastProvider.removeToast id { s with undoCalls := u }) ∧
      ((ToastProvider.removeToast id { s with undoCalls := u }).toasts.map
        (fun t => t.id)).Pairwise (· > ·) := by
    intro id u
    refine ⟨?_, ?_⟩
    · intro t ht
      exact hs t (List.mem_filter.mp ht).1
    · exact hp.sublist ((List.filter_sublist _).map _)
  cases call with
  | addToast options now =>
      have hid := mkToast_id_of_no_id_key dflt options (s.toastIdRef + 1) now hd
        (hc options now rfl)
      refine ⟨?_, ?_⟩
      · intro t ht
        simp only [StoreCall.apply, ToastProvider.addToast, List.mem_cons] at ht
        simp only [StoreCall.apply, ToastProvider.addToast]
        rcases ht with rfl | ht
        · omega
        · have := hs t ht
          omega
      · simp only [StoreCall.apply, ToastProvider.addToast, List.map_cons,
          List.pairwise_cons]
        refine ⟨?_, hp⟩
        intro i hi
        obtain ⟨t, ht, rfl⟩ := List.mem_map.mp hi
        have := hs t ht
        omega
  | removeToast id => exact hfilter id s.undoCalls
  | removeAllToasts =>
      refine ⟨?_, ?_⟩
      · intro t ht
        simp [StoreCall.apply, ToastProvider.removeAllToasts] at ht
      · simp [StoreCall.apply, ToastProvider.removeAllToasts]
  | undoAction toast =>
      simp only [StoreCall.apply, ToastProvider.undoAction]
      split
      · exact hfilter toast.id _
      · exact ⟨hs, hp⟩

end ToastApp
